import Mathlib

/-
Verification development for the Java stack-trace parser
(src/stackTraceParser.ts, enhanced `StackTraceParser` class).

Strings are modelled as `List Char`.  JavaScript regular expressions used by
the source are anchored and, on the inputs they are applied to, deterministic
up to existence of a decomposition; each one is translated into an explicit
matcher below.  `\s` is the JS whitespace class, `.` is "any char except a
line terminator", and `String.prototype.trim` removes JS whitespace at both
ends.  The matchers follow the regex structure; where a greedy quantifier is
forced (the character class of the quantified part is disjoint from the
character that must follow), the maximal run is taken directly, and where the
regex is genuinely nondeterministic (for example locating `Exception|Error`
inside a dotted chain) the matcher searches over the possible split points,
which is exactly the set of paths a backtracking engine explores.
-/

set_option maxRecDepth 10000

namespace STP

/-- Convert a string literal to the `List Char` representation used throughout. -/
def str2l (s : String) : List Char := s.data

/-- JS whitespace class `\s` (also the set removed by `String.prototype.trim`). -/
def jsWS (c : Char) : Bool :=
  c = ' ' || c = '\t' || c = '\n' || c = '\u000B' || c = '\u000C' || c = '\r' ||
  c = '\u00A0' || c = '\u1680' || ('\u2000' ≤ c && c ≤ '\u200A') ||
  c = '\u2028' || c = '\u2029' || c = '\u202F' || c = '\u205F' ||
  c = '\u3000' || c = '\uFEFF'

/-- JS line terminators (the characters `.` does not match). -/
def isLT (c : Char) : Bool :=
  c = '\n' || c = '\r' || c = '\u2028' || c = '\u2029'

/-- The JS `.` character class: anything but a line terminator. -/
def dotCh (c : Char) : Bool := !isLT c

/-- The class `[a-zA-Z_$]` (start of a Java identifier in the source regexes). -/
def identStart (c : Char) : Bool :=
  ('a' ≤ c && c ≤ 'z') || ('A' ≤ c && c ≤ 'Z') || c = '_' || c = '$'

/-- The class `[0-9]` (JS `\d`). -/
def isDigitCh (c : Char) : Bool := '0' ≤ c && c ≤ '9'

/-- The class `[a-zA-Z0-9_$]`. -/
def identCh (c : Char) : Bool := identStart c || isDigitCh c

/-- The class `[a-zA-Z0-9_$.]` (identifier characters plus dot). -/
def classM (c : Char) : Bool := identCh c || c = '.'

/-- `String.prototype.trim`: drop JS whitespace from both ends. -/
def jsTrim (l : List Char) : List Char :=
  ((l.dropWhile jsWS).reverse.dropWhile jsWS).reverse

/-- `input.split(/\r?\n/)`: a lone `\r` not followed by `\n` stays in its line. -/
def splitCRLF : List Char → List (List Char)
  | [] => [[]]
  | '\r' :: '\n' :: rest => [] :: splitCRLF rest
  | '\n' :: rest => [] :: splitCRLF rest
  | c :: rest =>
    match splitCRLF rest with
    | l :: ls => (c :: l) :: ls
    | [] => [[c]]

/-- Matcher for `.+\s*$`: some nonempty prefix of non-line-terminator
characters followed by whitespace only. -/
def dotPlusThenWs : List Char → Bool
  | [] => false
  | c :: t => dotCh c && (t.all jsWS || dotPlusThenWs t)

/-- Matcher for `\s*.+\s*$` (the text after the colon of an exception message). -/
def wsThenDotRun : List Char → Bool
  | [] => false
  | c :: t => dotPlusThenWs (c :: t) || (jsWS c && wsThenDotRun t)

/-- Matcher for `(?::\s*.+)?\s*$`: either only trailing whitespace, or a colon
followed by `\s*.+\s*$`. -/
def excMsgTail (u : List Char) : Bool :=
  u.all jsWS ||
  (match u with
   | ':' :: u2 => wsThenDotRun u2
   | _ => false)

/-- Search for the `(?:Exception|Error)(?::\s*.+)?\s*$` part of the dotted
chain of the exception-header regex, at every split point a backtracking
engine would try (the preceding characters must stay inside `[a-zA-Z0-9_$.]`). -/
def chainTail : List Char → Bool
  | [] => false
  | c :: t =>
    ((str2l "Exception").isPrefixOf (c :: t) && excMsgTail ((c :: t).drop 9)) ||
    ((str2l "Error").isPrefixOf (c :: t) && excMsgTail ((c :: t).drop 5)) ||
    (classM c && chainTail t)

/-- Matcher for the exception-name chain
`[a-zA-Z_$][a-zA-Z0-9_$.]*(?:\.[a-zA-Z_$][a-zA-Z0-9_$]*)*(?:Exception|Error)(?::\s*.+)?\s*$`
(group 2 of the exception-header regex, identical in the caused-by and
suppressed regexes).  The second starred group generates strings that the
first starred class also generates, so matchability only needs one scan. -/
def matchChain : List Char → Bool
  | [] => false
  | c :: t => identStart c && chainTail t

/-- Test of the exception-header regex
`^(\s*)(Exception in thread .+|<chain>)\s*$`.  Both alternatives begin with a
non-whitespace character, so the leading `(\s*)` is forced to the maximal
whitespace run. -/
def matchExceptionLine (line : List Char) : Bool :=
  let rest := line.dropWhile jsWS
  ((str2l "Exception in thread ").isPrefixOf rest && dotPlusThenWs (rest.drop 20)) ||
  matchChain rest

/-- Test of the caused-by regex `^(\s*)Caused by:\s*<chain>\s*$`. -/
def matchCausedBy (line : List Char) : Bool :=
  let rest := line.dropWhile jsWS
  (str2l "Caused by:").isPrefixOf rest && matchChain ((rest.drop 10).dropWhile jsWS)

/-- Test of the suppressed regex `^(\s*)Suppressed:\s*<chain>\s*$`. -/
def matchSuppressed (line : List Char) : Bool :=
  let rest := line.dropWhile jsWS
  (str2l "Suppressed:").isPrefixOf rest && matchChain ((rest.drop 11).dropWhile jsWS)

/-- Test of the elision regex `^(\s*)\.\.\.\s*\d+\s*more\s*$`. -/
def matchMore (line : List Char) : Bool :=
  let rest := line.dropWhile jsWS
  (str2l "...").isPrefixOf rest &&
  (let u := (rest.drop 3).dropWhile jsWS
   let d := u.takeWhile isDigitCh
   !d.isEmpty &&
   (let v := (u.drop d.length).dropWhile jsWS
    (str2l "more").isPrefixOf v && (v.drop 4).all jsWS))

/-- Matcher for `[a-zA-Z_$][a-zA-Z0-9_$]*` covering the whole remaining text
(the method-name part after the `\.` of the frame regex). -/
def methodTail : List Char → Bool
  | [] => false
  | c :: t => identStart c && t.all identCh

/-- Search for the `\.` split point of
`[a-zA-Z0-9_$.]*\.[a-zA-Z_$][a-zA-Z0-9_$]*` within the full-method run: at
each position either the dot starts the final method segment, or the
character belongs to the starred class and the search continues. -/
def dotSearch : List Char → Bool
  | [] => false
  | c :: t => (c = '.' && methodTail t) || (classM c && dotSearch t)

/-- Matchability of `[a-zA-Z_$][a-zA-Z0-9_$.]*\.[a-zA-Z_$][a-zA-Z0-9_$]*`
against the whole run (group 2 of the frame regex). -/
def hasMethodSplit : List Char → Bool
  | [] => false
  | c :: t => identStart c && dotSearch t

/-- Match of the frame regex
`^(\s*)at\s+([a-zA-Z_$][a-zA-Z0-9_$.]*\.[a-zA-Z_$][a-zA-Z0-9_$]*)\(([^)]+)\)\s*$`,
returning groups 2 (full dotted method) and 3 (location).  The `\s+` run and
the `[a-zA-Z0-9_$.]` run are forced maximal because the following required
characters are outside the respective classes, and `[^)]+` is forced to stop
at the first `)`. -/
def matchAtLine (line : List Char) : Option (List Char × List Char) :=
  let rest := line.dropWhile jsWS
  if (str2l "at").isPrefixOf rest then
    let u := rest.drop 2
    if (u.takeWhile jsWS).isEmpty then none
    else
      let v := u.dropWhile jsWS
      let fm := v.takeWhile classM
      if hasMethodSplit fm then
        match v.drop fm.length with
        | '(' :: w =>
          let loc := w.takeWhile (fun c => !(c = ')'))
          if loc.isEmpty then none
          else
            match w.drop loc.length with
            | ')' :: w2 => if w2.all jsWS then some (fm, loc) else none
            | _ => none
        | _ => none
      else none
  else none

/-- The `type` field of `StackTraceLine`; the TS string literals are
`exception`, `at`, `caused_by`, `suppressed`, `more`, `unknown` (the
constructor for `at` is named `at_` because `at` is reserved in Lean). -/
inductive LineType where
  | exception
  | at_
  | caused_by
  | suppressed
  | more
  | unknown
deriving DecidableEq

/-- TS interface `StackTraceLine`.  The optional TS fields are `Option`s
(absent = `none`). -/
structure StackTraceLine where
  type : LineType
  content : List Char
  className : Option (List Char)
  methodName : Option (List Char)
  fileName : Option (List Char)
  lineNumber : Option Nat
  indent : Nat
deriving DecidableEq

/-- TS interface `ParsedStackTrace`. -/
structure ParsedStackTrace where
  lines : List StackTraceLine
  hasStackTrace : Bool
  extractedText : List Char
deriving DecidableEq

/-- `fullMethod.lastIndexOf(".")` as an `Option` (`none` = TS `-1`). -/
def lastDotIdx : List Char → Option Nat
  | [] => none
  | c :: t =>
    match lastDotIdx t with
    | some k => some (k + 1)
    | none => if c = '.' then some 0 else none

/-- `parseInt` on a nonempty digit string. -/
def digitsToNat (d : List Char) : Nat :=
  d.foldl (fun a c => 10 * a + (c.toNat - 48)) 0

/-- The unique decomposition `location = p ++ ':' :: d` with `d` a nonempty
all-digit suffix preceded by a colon and `p` made of `.`-matchable
characters; this is the only decomposition a backtracking engine can use for
`^(.+):(\d+)$` (a shorter digit group would be preceded by a digit, not a
colon, and a longer one would include the colon). -/
def locSplit : List Char → Option (List Char × List Char)
  | [] => none
  | c :: t =>
    match locSplit t with
    | some (p, d) => if dotCh c then some (c :: p, d) else none
    | none => if c = ':' && !t.isEmpty && t.all isDigitCh then some ([], t) else none

/-- Match of `location.match(/^(.+):(\d+)$/)`: group 1 must also be nonempty. -/
def locationSplit (loc : List Char) : Option (List Char × Nat) :=
  match locSplit loc with
  | some (p, d) => if p.isEmpty then none else some (p, digitsToNat d)
  | none => none

/-- The `className`/`methodName` computation of `parseStackTraceLine`:
`lastDotIndex > 0 ? substring : degenerate`. -/
def atFields (fullMethod : List Char) : List Char × List Char :=
  match lastDotIdx fullMethod with
  | some k =>
    if 0 < k then (fullMethod.take k, fullMethod.drop (k + 1))
    else ([], fullMethod)
  | none => ([], fullMethod)

/-- The `fileName`/`lineNumber` computation of `parseStackTraceLine`. -/
def locFields (location : List Char) : Option (List Char) × Option Nat :=
  match locationSplit location with
  | some (p, n) => (some p, some n)
  | none => (some location, none)

/-- `StackTraceParser.parseStackTraceLine`.  The TS function is declared to
return `StackTraceLine | null` but every path returns an object, so the model
is total.  `indent = line.length - line.trimStart().length` is the length of
the leading JS-whitespace run. -/
def parseStackTraceLine (line : List Char) : StackTraceLine :=
  let indent := (line.takeWhile jsWS).length
  if matchExceptionLine line then
    ⟨LineType.exception, line, none, none, none, none, indent⟩
  else
    match matchAtLine line with
    | some (fullMethod, location) =>
      ⟨LineType.at_, line, some (atFields fullMethod).1, some (atFields fullMethod).2,
        (locFields location).1, (locFields location).2, indent⟩
    | none =>
      if matchCausedBy line then ⟨LineType.caused_by, line, none, none, none, none, indent⟩
      else if matchSuppressed line then ⟨LineType.suppressed, line, none, none, none, none, indent⟩
      else if matchMore line then ⟨LineType.more, line, none, none, none, none, indent⟩
      else ⟨LineType.unknown, line, none, none, none, none, indent⟩

/-- The line loop of `StackTraceParser.parseStackTrace`: skip blank lines,
classify the rest in order (the TS null-check on the classifier result is
dead code since the classifier always returns an object). -/
def collectParsed : List (List Char) → List StackTraceLine
  | [] => []
  | l :: rest =>
    if (jsTrim l).isEmpty then collectParsed rest
    else parseStackTraceLine l :: collectParsed rest

/-- `StackTraceParser.parseStackTrace`. -/
def parseStackTrace (stackTraceText : List Char) : ParsedStackTrace :=
  let parsedLines := collectParsed (splitCRLF stackTraceText)
  { lines := parsedLines
    hasStackTrace := parsedLines.any (fun l => decide (l.type ≠ LineType.unknown))
    extractedText := stackTraceText }

/-- `StackTraceParser.isStackTraceLine`: nonblank after trimming and matched
by one of the five structural patterns. -/
def isStackTraceLine (line : List Char) : Bool :=
  !(jsTrim line).isEmpty &&
  (matchExceptionLine line || (matchAtLine line).isSome ||
   matchCausedBy line || matchSuppressed line || matchMore line)

/-- Test of the unanchored heuristic `/(?:Exception|Error)(?::\s*|$)/`:
an occurrence of `Exception` or `Error` followed by a colon or the end
(`\s*` after the colon always matches). -/
def colonOrEnd : List Char → Bool
  | [] => true
  | c :: _ => c = ':'

/-- Occurrence search for the heuristic above. -/
def hasExcToken : List Char → Bool
  | [] => false
  | c :: t =>
    ((str2l "Exception").isPrefixOf (c :: t) && colonOrEnd ((c :: t).drop 9)) ||
    ((str2l "Error").isPrefixOf (c :: t) && colonOrEnd ((c :: t).drop 5)) ||
    hasExcToken t

/-- Matcher for `\s+[a-zA-Z_$]` at the start of the text: at least one
whitespace character and then an identifier-start character right after the
whitespace run (the two classes are disjoint, so the run is forced). -/
def wsPlusIdent (u : List Char) : Bool :=
  !(u.takeWhile jsWS).isEmpty &&
  (match u.dropWhile jsWS with
   | c :: _ => identStart c
   | [] => false)

/-- The `hasExceptionLine` update test of `containsStackTracePatterns`:
`trimmed.match(/(?:Exception|Error)(?::\s*|$)/) || trimmed.match(/^Exception in thread/)`. -/
def excHeur (tr : List Char) : Bool :=
  hasExcToken tr || (str2l "Exception in thread").isPrefixOf tr

/-- The `hasAtLine` update test: `trimmed.match(/^\s*at\s+[a-zA-Z_$]/)`. -/
def atHeur (tr : List Char) : Bool :=
  let v := tr.dropWhile jsWS
  (str2l "at").isPrefixOf v && wsPlusIdent (v.drop 2)

/-- The counting loop of `containsStackTracePatterns`
(count, hasExceptionLine, hasAtLine accumulators). -/
def cspLoop : List (List Char) → Nat → Bool → Bool → Nat × Bool × Bool
  | [], cnt, he, ha => (cnt, he, ha)
  | l :: rest, cnt, he, ha =>
    if isStackTraceLine l then
      cspLoop rest (cnt + 1) (he || excHeur (jsTrim l)) (ha || atHeur (jsTrim l))
    else cspLoop rest cnt he ha

/-- `StackTraceParser.containsStackTracePatterns` (enhanced version). -/
def containsStackTracePatterns (content : List Char) : Bool :=
  let r := cspLoop (splitCRLF content) 0 false false
  r.1 ≥ 2 || (r.2.1 && r.2.2) || r.1 ≥ 3

/-- One global `String.prototype.replace` pass with a literal nonempty
pattern: leftmost, non-overlapping, resuming after each replaced segment.
The fuel only bounds the recursion; every step consumes at least one input
character, so `s.length` fuel is never exhausted. -/
def replaceAllF (pat rep : List Char) : Nat → List Char → List Char
  | 0, s => s
  | fuel + 1, s =>
    match s with
    | [] => []
    | c :: rest =>
      if pat.isPrefixOf s ∧ pat ≠ [] then
        rep ++ replaceAllF pat rep fuel (s.drop pat.length)
      else c :: replaceAllF pat rep fuel rest

/-- One global `String.prototype.replace` pass with a literal pattern. -/
def replaceAll (pat rep s : List Char) : List Char :=
  replaceAllF pat rep s.length s

/-- Value of a hex digit (`[0-9a-fA-F]`). -/
def hexVal (c : Char) : Option Nat :=
  if '0' ≤ c && c ≤ '9' then some (c.toNat - 48)
  else if 'a' ≤ c && c ≤ 'f' then some (c.toNat - 87)
  else if 'A' ≤ c && c ≤ 'F' then some (c.toNat - 55)
  else none

/-- The `/\\u([0-9a-fA-F]{4})/g` replacement pass.  `String.fromCharCode`
produces the UTF-16 code unit; `Char.ofNat` models it (a surrogate value,
which Lean cannot represent, becomes the null character). -/
def replaceUEsc : List Char → List Char
  | '\\' :: 'u' :: h1 :: h2 :: h3 :: h4 :: rest =>
    match hexVal h1, hexVal h2, hexVal h3, hexVal h4 with
    | some a, some b, some c, some d =>
      Char.ofNat (((a * 16 + b) * 16 + c) * 16 + d) :: replaceUEsc rest
    | _, _, _, _ => '\\' :: replaceUEsc ('u' :: h1 :: h2 :: h3 :: h4 :: rest)
  | c :: rest => c :: replaceUEsc rest
  | [] => []

/-- The `/\\x([0-9a-fA-F]{2})/g` replacement pass. -/
def replaceXEsc : List Char → List Char
  | '\\' :: 'x' :: h1 :: h2 :: rest =>
    match hexVal h1, hexVal h2 with
    | some a, some b => Char.ofNat (a * 16 + b) :: replaceXEsc rest
    | _, _ => '\\' :: replaceXEsc ('x' :: h1 :: h2 :: rest)
  | c :: rest => c :: replaceXEsc rest
  | [] => []

/-- `StackTraceParser.unescapeJsonString` (enhanced version): seven chained
global replacements, in source order. -/
def unescapeJsonString (s : List Char) : List Char :=
  replaceXEsc (replaceUEsc
    (replaceAll (str2l "\\\\") (str2l "\\")
      (replaceAll (str2l "\\\"") (str2l "\"")
        (replaceAll (str2l "\\t") (str2l "\t")
          (replaceAll (str2l "\\r") (str2l "\r")
            (replaceAll (str2l "\\n") (str2l "\n") s))))))

/-- Maximal span of the escaped-string-content language
`[^"\\]*(\\.[^"\\]*)*`: returns the span and the remaining text.  The scan
stops at a quote, at a backslash followed by a line terminator (the `.` of
`\\.` cannot match it), at a trailing lone backslash, or at the end. -/
def escContentSpan : List Char → List Char × List Char
  | [] => ([], [])
  | '"' :: rest => ([], '"' :: rest)
  | '\\' :: c :: rest =>
    if dotCh c then
      let p := escContentSpan rest
      ('\\' :: c :: p.1, p.2)
    else ([], '\\' :: c :: rest)
  | ['\\'] => ([], ['\\'])
  | c :: rest =>
    let p := escContentSpan rest
    (c :: p.1, p.2)

/-- Attempt of the quoted-string regex `"([^"\\]*(\\.[^"\\]*)*)"` right after
an opening quote: the content span must be followed by a closing quote. -/
def tryQuotedMatch (s : List Char) : Option (List Char × List Char) :=
  let p := escContentSpan s
  match p.2 with
  | '"' :: rest => some (p.1, rest)
  | _ => none

/-- Suffix right after the next occurrence of a given character (the regexes
of the scanning loops can only start at that character). -/
def afterNext (ch : Char) : List Char → Option (List Char)
  | [] => none
  | c :: rest => if c = ch then some rest else afterNext ch rest

/-- A `regex.exec` loop: find the next possible start, attempt the pattern
there, unescape the capture and test it; on success return it, otherwise
continue from `lastIndex` (the end of the match), or from just after a start
position where the pattern failed.  The fuel is `input.length + 1`; every
step strictly shortens the remaining text, so it never runs out. -/
def execLoop (findStart : List Char → Option (List Char))
    (tryAt : List Char → Option (List Char × List Char)) :
    Nat → List Char → Option (List Char)
  | 0, _ => none
  | fuel + 1, s =>
    match findStart s with
    | none => none
    | some s2 =>
      match tryAt s2 with
      | some (cap, rest) =>
        let un := unescapeJsonString cap
        if containsStackTracePatterns un then some un
        else execLoop findStart tryAt fuel rest
      | none => execLoop findStart tryAt fuel s2

/-- `StackTraceParser.extractFromQuotedStrings`. -/
def extractFromQuotedStrings (input : List Char) : Option (List Char) :=
  execLoop (afterNext '"') tryQuotedMatch (input.length + 1) input

/-- Attempt of `"[^"]*":\s*"([^"\\]*(?:\\.[^"\\]*)*)` right after its opening
quote: the `[^"]*` run is forced to the next quote, then `:`, optional
whitespace, a second quote, and the capture is the maximal content span with
no closing quote required. -/
def tryPa (s : List Char) : Option (List Char × List Char) :=
  let c0 := s.takeWhile (fun c => !(c = '"'))
  match s.drop c0.length with
  | '"' :: u =>
    match u with
    | ':' :: u2 =>
      match u2.dropWhile jsWS with
      | '"' :: v => some (escContentSpan v)
      | _ => none
    | _ => none
  | _ => none

/-- Attempt of `:\s*"([^"\\]*(?:\\.[^"\\]*)*)` right after its colon. -/
def tryPb (s : List Char) : Option (List Char × List Char) :=
  match s.dropWhile jsWS with
  | '"' :: v => some (escContentSpan v)
  | _ => none

/-- `Exception` or `Error` starting here. -/
def excErrHere (l : List Char) : Bool :=
  (str2l "Exception").isPrefixOf l || (str2l "Error").isPrefixOf l

/-- Occurrence of `Exception`/`Error` at a token boundary of an
escaped-content span (a boundary cannot fall between a pair's backslash and
its escaped character, which is where a backtracking engine could not split
`[^"\\]*(?:\\.[^"\\]*)*`). -/
def hasExcAtBoundary : List Char → Bool
  | [] => false
  | '\\' :: c :: rest => excErrHere ('\\' :: c :: rest) || hasExcAtBoundary rest
  | c :: rest => excErrHere (c :: rest) || hasExcAtBoundary rest

/-- Attempt of `"([^"\\]*(?:\\.[^"\\]*)*(?:Exception|Error)[^"\\]*(?:\\.[^"\\]*)*)`
right after its quote: the greedy parts make the capture the full maximal
content span; the pattern succeeds iff `Exception`/`Error` occurs at a token
boundary inside it. -/
def tryPc (s : List Char) : Option (List Char × List Char) :=
  let p := escContentSpan s
  if hasExcAtBoundary p.1 then some p else none

/-- `StackTraceParser.extractFromIncompleteJson`: the three looser patterns
tried in order, each with a full scanning loop. -/
def extractFromIncompleteJson (input : List Char) : Option (List Char) :=
  match execLoop (afterNext '"') tryPa (input.length + 1) input with
  | some r => some r
  | none =>
    match execLoop (afterNext ':') tryPb (input.length + 1) input with
    | some r => some r
    | none => execLoop (afterNext '"') tryPc (input.length + 1) input

/-- Occurrence search: the token occurs somewhere and the given test holds on
the text right after it (existence over all the positions a backtracking
engine would try for a `[^"]*`-separated component chain). -/
def findTokenThen (tok : List Char) (k : List Char → Bool) : List Char → Bool
  | [] => false
  | c :: t =>
    (tok.isPrefixOf (c :: t) && k ((c :: t).drop tok.length)) || findTokenThen tok k t

/-- The token occurs somewhere in the text. -/
def containsTok (tok : List Char) : List Char → Bool :=
  findTokenThen tok (fun _ => true)

/-- Component chain of the first raw-escaped pattern
`([^"]*(?:Exception|Error)[^"]*\\n[^"]*\\t[^"]*at\s+[a-zA-Z_$][^"]*)`
after the `Exception`/`Error` token: a literal `\n`, then a literal `\t`,
then `at` followed by `\s+[a-zA-Z_$]`, in order, anywhere within the
quote-free segment. -/
def pdAfterExc : List Char → Bool :=
  findTokenThen (str2l "\\n")
    (findTokenThen (str2l "\\t") (findTokenThen (str2l "at") wsPlusIdent))

/-- Matchability of the first raw-escaped pattern inside one quote-free
segment. -/
def pdCheck (seg : List Char) : Bool :=
  findTokenThen (str2l "Exception") pdAfterExc seg ||
  findTokenThen (str2l "Error") pdAfterExc seg

/-- Tail of the second raw-escaped pattern after its `at` token:
`\s+[^"]*(?:\\n[^"]*){1,}` — at least one whitespace character, then at least
one more literal `\n` anywhere later. -/
def peAtTail : List Char → Bool
  | [] => false
  | c :: t => jsWS c && containsTok (str2l "\\n") t

/-- Component chain of the second raw-escaped pattern
`([^"]*(?:java\.|com\.|org\.)[^"]*\\n[^"]*\\t[^"]*at\s+[^"]*(?:\\n[^"]*){1,})`
after the package token. -/
def peAfterPkg : List Char → Bool :=
  findTokenThen (str2l "\\n")
    (findTokenThen (str2l "\\t") (findTokenThen (str2l "at") peAtTail))

/-- Matchability of the second raw-escaped pattern inside one quote-free
segment. -/
def peCheck (seg : List Char) : Bool :=
  findTokenThen (str2l "java.") peAfterPkg seg ||
  findTokenThen (str2l "com.") peAfterPkg seg ||
  findTokenThen (str2l "org.") peAfterPkg seg

/-- Leftmost match of a raw-escaped pattern: all its components match only
non-quote characters and its final `[^"]*` is greedy, so a match starting at
offset `a` spans exactly the quote-free segment from `a`; returns the start
and end offsets relative to the scanned suffix. -/
def rawFindOff (check : List Char → Bool) : List Char → Option (Nat × Nat)
  | [] => none
  | c :: t =>
    let seg := (c :: t).takeWhile (fun x => !(x = '"'))
    if check seg then some (0, seg.length)
    else
      match rawFindOff check t with
      | some (a, b) => some (a + 1, b + 1)
      | none => none

/-- The forward scan of `extractExtendedEscapedSequence`, from `startIndex`.
Returns `some i` when the loop breaks having set `end = i` (closing quote
with at least one escape seen, or whitespace with at least two), `none` when
it stops via the end of input or the hard cap; the cap test
`i > startIndex + 2000` runs after each non-breaking iteration, exactly as in
the source, so the index can reach `startIndex + 2001`. -/
def scanFwd (si : Nat) : List Char → Nat → Nat → Bool → Option Nat
  | [], _, _, _ => none
  | c :: rest, i, esc, inEsc =>
    if c = '\\' ∧ inEsc = false then
      if i > si + 2000 then none else scanFwd si rest (i + 1) (esc + 1) true
    else if inEsc = true then
      if i > si + 2000 then none else scanFwd si rest (i + 1) esc false
    else if c = '"' ∧ 0 < esc then some i
    else if c = ' ' ∨ c = '\t' ∨ c = '\n' then
      if 2 ≤ esc then some i
      else if i > si + 2000 then none else scanFwd si rest (i + 1) esc inEsc
    else
      if i > si + 2000 then none else scanFwd si rest (i + 1) esc inEsc

/-- The backward walk of `extractExtendedEscapedSequence`: step back while
the previous character is not a quote, space, tab or newline. -/
def eesStart (input : List Char) (si : Nat) : Nat :=
  si - ((input.take si).reverse.takeWhile
    (fun c => !(c = '"' || c = ' ' || c = '\t' || c = '\n'))).length

/-- The final `end` value of `extractExtendedEscapedSequence`: the loop
result, defaulted to `min(input.length, startIndex + 1000)` when the loop
never set it. -/
def eesEnd (input : List Char) (si : Nat) : Nat :=
  let e0 := (scanFwd si (input.drop si) si 0 false).getD si
  if e0 ≤ si then min input.length (si + 1000) else e0

/-- `StackTraceParser.extractExtendedEscapedSequence`:
`input.substring(start, end)`. -/
def extractExtendedEscapedSequence (input : List Char) (startIndex : Nat) : List Char :=
  (input.take (eesEnd input startIndex)).drop (eesStart input startIndex)

/-- One `exec` loop of `extractFromRawEscapedText` (shared by its two
patterns): on a match, run the three literal `includes` checks on the
captured content; when they pass, expand via
`extractExtendedEscapedSequence` from the match index, unescape and test;
continue from the match end otherwise. -/
def rawLoop (check : List Char → Bool) (input : List Char) : Nat → Nat → Option (List Char)
  | 0, _ => none
  | fuel + 1, pos =>
    match rawFindOff check (input.drop pos) with
    | none => none
    | some (a, b) =>
      let content := (input.drop (pos + a)).takeWhile (fun x => !(x = '"'))
      if containsTok (str2l "\\n") content && containsTok (str2l "\\t") content &&
          containsTok (str2l "at ") content then
        let un := unescapeJsonString (extractExtendedEscapedSequence input (pos + a))
        if containsStackTracePatterns un then some un
        else rawLoop check input fuel (pos + b)
      else rawLoop check input fuel (pos + b)

/-- `StackTraceParser.extractFromRawEscapedText`. -/
def extractFromRawEscapedText (input : List Char) : Option (List Char) :=
  match rawLoop pdCheck input (input.length + 1) 0 with
  | some r => some r
  | none => rawLoop peCheck input (input.length + 1) 0

/-- `StackTraceParser.extractSerializedStackTrace`: the three strategies in
order.  Each strategy only returns a string that passed
`containsStackTracePatterns`, which is false on the empty string, so the TS
truthiness tests agree with `Option.isSome`. -/
def extractSerializedStackTrace (input : List Char) : Option (List Char) :=
  match extractFromQuotedStrings input with
  | some r => some r
  | none =>
    match extractFromIncompleteJson input with
    | some r => some r
    | none => extractFromRawEscapedText input

/-- The fallback line loop of `extractStackTrace`: collect a single
contiguous run of trace-like lines, including blank lines while inside the
run and tolerating a non-trace-like line when one of the next two lines is
trace-like; a failed lookahead breaks the loop. -/
def extractLoop : List (List Char) → Bool → List (List Char) → List (List Char)
  | [], _, acc => acc.reverse
  | l :: rest, inST, acc =>
    if isStackTraceLine l then extractLoop rest true (l :: acc)
    else if inST && (jsTrim l).isEmpty then extractLoop rest inST (l :: acc)
    else if inST then
      if (rest.take 2).any isStackTraceLine then extractLoop rest inST (l :: acc)
      else acc.reverse
    else extractLoop rest inST acc

/-- The fallback extraction of `extractStackTrace`:
`stackTraceLines.join('\n')`. -/
def extractLineRuns (input : List Char) : List Char :=
  List.intercalate ['\n'] (extractLoop (splitCRLF input) false [])

/-- `StackTraceParser.extractStackTrace`. -/
def extractStackTrace (input : List Char) : List Char :=
  match extractSerializedStackTrace input with
  | some s => s
  | none => extractLineRuns input

/-- `StackTraceParser.escapeHtml`: five chained global replacements, in
source order. -/
def escapeHtml (t : List Char) : List Char :=
  replaceAll ['\''] (str2l "&#39;")
    (replaceAll ['"'] (str2l "&quot;")
      (replaceAll ['>'] (str2l "&gt;")
        (replaceAll ['<'] (str2l "&lt;")
          (replaceAll ['&'] (str2l "&amp;") t))))

/-- The TS string for each line type (used in the css class name). -/
def typeStr : LineType → List Char
  | LineType.exception => str2l "exception"
  | LineType.at_ => str2l "at"
  | LineType.caused_by => str2l "caused_by"
  | LineType.suppressed => str2l "suppressed"
  | LineType.more => str2l "more"
  | LineType.unknown => str2l "unknown"

/-- `content.replace` with the anchored `^\s*<keyword>\s*` pattern and an empty
replacement, for `Caused by:`/`Suppressed:`:
anchored, so the leading whitespace run is forced and the trailing `\s*` is
greedy-maximal; a non-matching content is returned unchanged. -/
def stripLeadKeyword (kw : List Char) (content : List Char) : List Char :=
  let rest := content.dropWhile jsWS
  if kw.isPrefixOf rest then (rest.drop kw.length).dropWhile jsWS
  else content

/-- The `&nbsp;` entity repeated `indent` times. -/
def nbspRepeat (n : Nat) : List Char :=
  (List.replicate n (str2l "&nbsp;")).flatten

/-- The conditional colon-plus-line-number suffix — JS truthiness renders a
zero line number as absent. -/
def lineNumStr : Option Nat → List Char
  | some n => if n = 0 then [] else ':' :: str2l (toString n)
  | none => []

/-- One line of `StackTraceParser.formatAsHtml` (the switch body). -/
def formatLine (l : StackTraceLine) : List Char :=
  let ind := nbspRepeat l.indent
  let esc := escapeHtml (jsTrim l.content)
  let cls := str2l "stacktrace-" ++ typeStr l.type
  match l.type with
  | LineType.exception =>
    str2l "<div class=\"" ++ cls ++ str2l "\">" ++ ind ++
    str2l "<span class=\"exception-text\">" ++ esc ++ str2l "</span></div>"
  | LineType.at_ =>
    str2l "<div class=\"" ++ cls ++ str2l "\">" ++ ind ++
    str2l "<span class=\"at-keyword\">at</span> <span class=\"method-name\">" ++
    escapeHtml (l.className.getD []) ++ str2l "." ++ escapeHtml (l.methodName.getD []) ++
    str2l "</span>(<span class=\"location\">" ++ escapeHtml (l.fileName.getD []) ++
    lineNumStr l.lineNumber ++ str2l "</span>)</div>"
  | LineType.caused_by =>
    str2l "<div class=\"" ++ cls ++ str2l "\">" ++ ind ++
    str2l "<span class=\"caused-by-keyword\">Caused by:</span> <span class=\"exception-text\">" ++
    escapeHtml (stripLeadKeyword (str2l "Caused by:") l.content) ++ str2l "</span></div>"
  | LineType.suppressed =>
    str2l "<div class=\"" ++ cls ++ str2l "\">" ++ ind ++
    str2l "<span class=\"suppressed-keyword\">Suppressed:</span> <span class=\"exception-text\">" ++
    escapeHtml (stripLeadKeyword (str2l "Suppressed:") l.content) ++ str2l "</span></div>"
  | LineType.more =>
    str2l "<div class=\"" ++ cls ++ str2l "\">" ++ ind ++
    str2l "<span class=\"more-text\">" ++ esc ++ str2l "</span></div>"
  | LineType.unknown =>
    str2l "<div class=\"" ++ cls ++ str2l "\">" ++ ind ++ esc ++ str2l "</div>"

/-- The fixed placeholder returned when no stack trace was recognized. -/
def noTraceHtml : List Char :=
  str2l "<p class=\"no-stacktrace\">No stack trace found</p>"

/-- `StackTraceParser.formatAsHtml`. -/
def formatAsHtml (p : ParsedStackTrace) : List Char :=
  if p.hasStackTrace = false then noTraceHtml
  else
    str2l "<div class=\"stacktrace-container\">" ++
    List.intercalate ['\n'] (p.lines.map formatLine) ++ str2l "</div>"

/-! ## Spec-side definitions

Definitions below formalize the wording of the specification (not the code);
they are compared with the source-derived definitions above. -/

/-- Spec wording (C2): the dotted method path splits at its last
`.`-delimited boundary: the last segment is the method name, everything
before the last dot is the declaring type, and with no dot the declaring
type is empty and the whole path is the (only) segment. -/
def lastSegmentSplit (fm : List Char) : List Char × List Char :=
  match lastDotIdx fm with
  | some k => (fm.take k, fm.drop (k + 1))
  | none => ([], fm)

/-- Spec wording (C4): a block is trace-like iff it has at least 2 trace-like
lines, or at least one exception-header line (pattern 1) and at least one
frame line (pattern 2), or at least 3 trace-like lines. -/
def specBlockTraceLike (content : List Char) : Bool :=
  let ls := splitCRLF content
  let cnt := (ls.filter isStackTraceLine).length
  cnt ≥ 2 || (ls.any matchExceptionLine && ls.any (fun l => (matchAtLine l).isSome)) ||
  cnt ≥ 3

/-- Spec wording (C5), consume phase: once inside a run, a trace-like line
extends it, a blank line is included, and a non-trace-like non-blank line is
included only when one of the next two lines is trace-like; otherwise the
run ends. -/
def runConsume : List (List Char) → List (List Char)
  | [] => []
  | l :: rest =>
    if isStackTraceLine l then l :: runConsume rest
    else if (jsTrim l).isEmpty then l :: runConsume rest
    else if (rest.take 2).any isStackTraceLine then l :: runConsume rest
    else []

/-- Spec wording (C5): the run starts at the first trace-like line (no run
at all when there is none) and is then consumed by `runConsume`. -/
def runSpec (ls : List (List Char)) : List (List Char) :=
  match ls.dropWhile (fun l => !isStackTraceLine l) with
  | [] => []
  | l :: rest => l :: runConsume rest

/-! ## Helper lemmas -/

theorem collectParsed_eq (ls : List (List Char)) :
    collectParsed ls =
      (ls.filter (fun l => !(jsTrim l).isEmpty)).map parseStackTraceLine := by
  induction ls with
  | nil => rfl
  | cons l rest ih =>
    cases h : (jsTrim l).isEmpty <;> simp [collectParsed, h, ih]

theorem parseLine_shape (l : List Char) :
    (parseStackTraceLine l).type = LineType.at_ ∨
    ((parseStackTraceLine l).className = none ∧ (parseStackTraceLine l).methodName = none ∧
     (parseStackTraceLine l).fileName = none ∧ (parseStackTraceLine l).lineNumber = none) := by
  unfold parseStackTraceLine
  split
  · exact Or.inr ⟨rfl, rfl, rfl, rfl⟩
  · split
    · exact Or.inl rfl
    · split
      · exact Or.inr ⟨rfl, rfl, rfl, rfl⟩
      · split
        · exact Or.inr ⟨rfl, rfl, rfl, rfl⟩
        · split
          · exact Or.inr ⟨rfl, rfl, rfl, rfl⟩
          · exact Or.inr ⟨rfl, rfl, rfl, rfl⟩

theorem parseLine_at_inv (l : List Char)
    (h : (parseStackTraceLine l).type = LineType.at_) :
    ∃ fm loc, matchAtLine l = some (fm, loc) ∧
      (parseStackTraceLine l).className = some (atFields fm).1 ∧
      (parseStackTraceLine l).methodName = some (atFields fm).2 ∧
      (parseStackTraceLine l).fileName = (locFields loc).1 ∧
      (parseStackTraceLine l).lineNumber = (locFields loc).2 := by
  cases hE : matchExceptionLine l with
  | true => exfalso; simp [parseStackTraceLine, hE] at h
  | false =>
    cases hA : matchAtLine l with
    | none =>
      exfalso
      simp only [parseStackTraceLine, hE, hA, Bool.false_eq_true, if_false] at h
      split at h
      · simp at h
      · split at h
        · simp at h
        · split at h <;> simp at h
    | some pr =>
      rcases pr with ⟨fm, loc⟩
      exact ⟨fm, loc, rfl, by simp [parseStackTraceLine, hE, hA],
        by simp [parseStackTraceLine, hE, hA], by simp [parseStackTraceLine, hE, hA],
        by simp [parseStackTraceLine, hE, hA]⟩

theorem matchAtLine_hasSplit (l fm loc : List Char)
    (h : matchAtLine l = some (fm, loc)) : hasMethodSplit fm = true := by
  simp only [matchAtLine] at h
  split at h
  · split at h
    · simp at h
    · split at h
      · split at h
        · split at h
          · simp at h
          · split at h
            · split at h
              · simp only [Option.some.injEq, Prod.mk.injEq] at h
                obtain ⟨h1, h2⟩ := h
                subst h1
                assumption
              · simp at h
            · simp at h
        · simp at h
      · simp at h
  · simp at h

theorem dotSearch_decomp (t : List Char) (h : dotSearch t = true) :
    ∃ u y, t = u ++ '.' :: y ∧ methodTail y = true := by
  induction t with
  | nil => simp [dotSearch] at h
  | cons c t2 ih =>
    simp only [dotSearch, Bool.or_eq_true, Bool.and_eq_true, decide_eq_true_eq] at h
    rcases h with ⟨hc, hm⟩ | ⟨_, hd⟩
    · exact ⟨[], t2, by rw [hc]; rfl, hm⟩
    · obtain ⟨u2, y, hty, hmy⟩ := ih hd
      exact ⟨c :: u2, y, by rw [hty]; rfl, hmy⟩

theorem identStart_ne_dot (c : Char) (h : identStart c = true) : c ≠ '.' := by
  rintro rfl; revert h; decide

theorem identCh_ne_dot (c : Char) (h : identCh c = true) : c ≠ '.' := by
  rintro rfl; revert h; decide

theorem methodTail_props (y : List Char) (h : methodTail y = true) :
    y ≠ [] ∧ ∀ c ∈ y, c ≠ '.' := by
  cases y with
  | nil => simp [methodTail] at h
  | cons c t =>
    simp only [methodTail, Bool.and_eq_true] at h
    refine ⟨by simp, ?_⟩
    intro x hx
    rcases List.mem_cons.mp hx with rfl | hx2
    · exact identStart_ne_dot x h.1
    · exact identCh_ne_dot x (by simpa using (List.all_eq_true.mp h.2) x hx2)

theorem lastDotIdx_eq_none (y : List Char) (h : ∀ c ∈ y, c ≠ '.') :
    lastDotIdx y = none := by
  induction y with
  | nil => rfl
  | cons c t ih =>
    simp only [lastDotIdx]
    rw [ih fun x hx => h x (List.mem_cons_of_mem c hx)]
    simp [h c (List.mem_cons_self c t)]

theorem lastDotIdx_append (a y : List Char) (hy : ∀ c ∈ y, c ≠ '.') :
    lastDotIdx (a ++ '.' :: y) = some a.length := by
  induction a with
  | nil => simp [lastDotIdx, lastDotIdx_eq_none y hy]
  | cons c a2 ih => simp [lastDotIdx, ih]

theorem atFields_of_hasSplit (fm : List Char) (h : hasMethodSplit fm = true) :
    atFields fm = lastSegmentSplit fm ∧ (atFields fm).1 ≠ [] ∧ (atFields fm).2 ≠ [] := by
  cases fm with
  | nil => simp [hasMethodSplit] at h
  | cons c t =>
    simp only [hasMethodSplit, Bool.and_eq_true] at h
    obtain ⟨u, y, hty, hmy⟩ := dotSearch_decomp t h.2
    have hy := methodTail_props y hmy
    have hdec : c :: t = (c :: u) ++ '.' :: y := by rw [hty]; rfl
    have hidx : lastDotIdx (c :: t) = some (u.length + 1) := by
      rw [hdec]
      simpa using lastDotIdx_append (c :: u) y hy.2
    have htake : (c :: t).take (u.length + 1) = c :: u := by
      rw [hdec]
      exact List.take_left (c :: u) ('.' :: y)
    have hdropk : (c :: t).drop (u.length + 1) = '.' :: y := by
      rw [hdec]
      exact List.drop_left (c :: u) ('.' :: y)
    have hdrop : (c :: t).drop (u.length + 1 + 1) = y := by
      have := List.drop_drop 1 (u.length + 1) (c :: t)
      rw [hdropk] at this
      simpa [Nat.add_comm] using this.symm
    constructor
    · simp [atFields, lastSegmentSplit, hidx]
    · simp [atFields, hidx, htake, hdrop, hy.1]

theorem locSplit_sound (loc : List Char) :
    ∀ p d, locSplit loc = some (p, d) →
      loc = p ++ ':' :: d ∧ p.all dotCh = true ∧ d ≠ [] ∧ d.all isDigitCh = true := by
  induction loc with
  | nil => intro p d h; simp [locSplit] at h
  | cons c t ih =>
    intro p d h
    simp only [locSplit] at h
    cases h2 : locSplit t with
    | some pr =>
      rw [h2] at h
      rcases pr with ⟨p2, d2⟩
      by_cases hc : dotCh c = true
      · simp only [hc, if_true, Option.some.injEq, Prod.mk.injEq] at h
        obtain ⟨rfl, rfl⟩ := h
        obtain ⟨hdec, hall, hne, hd⟩ := ih p2 d2 h2
        exact ⟨by rw [hdec]; rfl, by simp [hall, hc], hne, hd⟩
      · simp [hc] at h
    | none =>
      rw [h2] at h
      by_cases hg : (c = ':' && !t.isEmpty && t.all isDigitCh) = true
      · simp only [hg, if_true, Option.some.injEq, Prod.mk.injEq] at h
        obtain ⟨rfl, rfl⟩ := h
        simp only [Bool.and_eq_true, decide_eq_true_eq, Bool.not_eq_true'] at hg
        refine ⟨by rw [hg.1.1]; rfl, by simp, ?_, hg.2⟩
        simpa [List.isEmpty_iff] using hg.1.2
      · simp [hg] at h

theorem isDigitCh_ne_colon (c : Char) (h : isDigitCh c = true) : c ≠ ':' := by
  rintro rfl; revert h; decide

theorem locSplit_complete (p d : List Char) (hp : p.all dotCh = true)
    (hd1 : d ≠ []) (hd2 : d.all isDigitCh = true) :
    locSplit (p ++ ':' :: d) = some (p, d) := by
  induction p with
  | nil =>
    simp only [List.nil_append, locSplit]
    cases h2 : locSplit d with
    | some pr =>
      exfalso
      rcases pr with ⟨p2, d2⟩
      obtain ⟨hdec, _, _, _⟩ := locSplit_sound d p2 d2 h2
      have : (':' : Char) ∈ d := by
        rw [hdec]; exact List.mem_append_right _ (List.mem_cons_self _ _)
      exact isDigitCh_ne_colon ':' (by simpa using (List.all_eq_true.mp hd2) ':' this) rfl
    | none =>
      simp [locSplit, h2, hd2, List.isEmpty_iff, hd1]
  | cons c p2 ih =>
    have hc : dotCh c = true := by
      have := (List.all_eq_true.mp hp) c (List.mem_cons_self c p2)
      simpa using this
    have hp2 : p2.all dotCh = true := by
      rw [List.all_eq_true] at hp ⊢
      exact fun x hx => hp x (List.mem_cons_of_mem c hx)
    simp only [List.cons_append, locSplit, List.append_eq, ih hp2, hc, if_true]

theorem locationSplit_some (loc p : List Char) (n : Nat)
    (h : locationSplit loc = some (p, n)) :
    ∃ d, loc = p ++ ':' :: d ∧ p ≠ [] ∧ p.all dotCh = true ∧ d ≠ [] ∧
      d.all isDigitCh = true ∧ n = digitsToNat d := by
  unfold locationSplit at h
  cases h2 : locSplit loc with
  | none => rw [h2] at h; simp at h
  | some pr =>
    rw [h2] at h
    rcases pr with ⟨p0, d⟩
    by_cases hp0 : p0.isEmpty = true
    · simp [hp0] at h
    · simp only [hp0, Bool.false_eq_true, if_false, Option.some.injEq, Prod.mk.injEq] at h
      obtain ⟨rfl, rfl⟩ := h
      obtain ⟨hdec, hall, hdne, hdig⟩ := locSplit_sound loc p0 d h2
      exact ⟨d, hdec, by simpa [List.isEmpty_iff] using hp0, hall, hdne, hdig, rfl⟩

theorem locationSplit_of_decomp (p d : List Char) (hp1 : p ≠ [])
    (hp2 : p.all dotCh = true) (hd1 : d ≠ []) (hd2 : d.all isDigitCh = true) :
    locationSplit (p ++ ':' :: d) = some (p, digitsToNat d) := by
  unfold locationSplit
  rw [locSplit_complete p d hp2 hd1 hd2]
  simp [List.isEmpty_iff, hp1]

theorem cspLoop_spec (ls : List (List Char)) :
    ∀ cnt he ha, cspLoop ls cnt he ha =
      (cnt + (ls.filter isStackTraceLine).length,
       he || ls.any (fun l => isStackTraceLine l && excHeur (jsTrim l)),
       ha || ls.any (fun l => isStackTraceLine l && atHeur (jsTrim l))) := by
  induction ls with
  | nil => intro cnt he ha; simp [cspLoop]
  | cons l rest ih =>
    intro cnt he ha
    cases hS : isStackTraceLine l with
    | true =>
      simp only [cspLoop, hS, if_true, ih, List.filter_cons, List.any_cons,
        Bool.true_and, List.length_cons, Prod.mk.injEq]
      exact ⟨by omega, by simp [Bool.or_assoc], by simp [Bool.or_assoc]⟩
    | false =>
      simp [cspLoop, hS, ih]

theorem extractLoop_inRun (ls : List (List Char)) :
    ∀ acc, extractLoop ls true acc = acc.reverse ++ runConsume ls := by
  induction ls with
  | nil => intro acc; simp [extractLoop, runConsume]
  | cons l rest ih =>
    intro acc
    cases hS : isStackTraceLine l with
    | true => simp [extractLoop, runConsume, hS, ih, List.append_assoc]
    | false =>
      cases hB : (jsTrim l).isEmpty with
      | true => simp [extractLoop, runConsume, hS, hB, ih]
      | false =>
        cases hL : (rest.take 2).any isStackTraceLine with
        | true => simp [extractLoop, runConsume, hS, hB, hL, ih]
        | false => simp [extractLoop, runConsume, hS, hB, hL]

theorem extractLoop_seek (ls : List (List Char)) :
    extractLoop ls false [] = runSpec ls := by
  induction ls with
  | nil => rfl
  | cons l rest ih =>
    cases hS : isStackTraceLine l with
    | true =>
      simp only [extractLoop, hS, if_true]
      rw [extractLoop_inRun rest [l]]
      simp [runSpec, hS]
    | false =>
      simp only [extractLoop, hS, Bool.false_eq_true, if_false, Bool.false_and, ih]
      simp [runSpec, hS]

theorem scanFwd_le (si : Nat) (l : List Char) :
    ∀ i esc b e, i ≤ si + 2001 → scanFwd si l i esc b = some e → e ≤ si + 2001 := by
  induction l with
  | nil => intro i esc b e _ h; simp [scanFwd] at h
  | cons c rest ih =>
    intro i esc b e hi h
    unfold scanFwd at h
    split at h
    · split at h
      · exact absurd h (by simp)
      · exact ih (i + 1) (esc + 1) true e (by omega) h
    · split at h
      · split at h
        · exact absurd h (by simp)
        · exact ih (i + 1) esc false e (by omega) h
      · split at h
        · simp only [Option.some.injEq] at h; omega
        · split at h
          · split at h
            · simp only [Option.some.injEq] at h; omega
            · split at h
              · exact absurd h (by simp)
              · exact ih (i + 1) esc b e (by omega) h
          · split at h
            · exact absurd h (by simp)
            · exact ih (i + 1) esc b e (by omega) h

theorem formatAsHtml_ne_nil (p : ParsedStackTrace) : formatAsHtml p ≠ [] := by
  unfold formatAsHtml
  split
  · decide
  · intro h
    have h2 := congrArg List.length h
    simp [List.length_append, str2l] at h2

theorem scanFwd_step_esc (si : Nat) (rest : List Char) (i esc : Nat)
    (hcap : ¬ i > si + 2000) :
    scanFwd si ('\\' :: rest) i esc false = scanFwd si rest (i + 1) (esc + 1) true := by
  conv_lhs => rw [scanFwd]
  rw [if_pos ⟨rfl, rfl⟩, if_neg hcap]

theorem scanFwd_step_inEsc (si : Nat) (rest : List Char) (c : Char) (i esc : Nat)
    (hcap : ¬ i > si + 2000) :
    scanFwd si (c :: rest) i esc true = scanFwd si rest (i + 1) esc false := by
  conv_lhs => rw [scanFwd]
  rw [if_neg (fun h => Bool.true_eq_false.mp h.2), if_pos rfl, if_neg hcap]

theorem scanFwd_step_other (si : Nat) (rest : List Char) (c : Char) (i esc : Nat)
    (h1 : c ≠ '\\') (h2 : c ≠ '"') (h3 : ¬(c = ' ' ∨ c = '\t' ∨ c = '\n'))
    (hcap : ¬ i > si + 2000) :
    scanFwd si (c :: rest) i esc false = scanFwd si rest (i + 1) esc false := by
  conv_lhs => rw [scanFwd]
  rw [if_neg (fun h => h1 h.1), if_neg (fun h => Bool.false_eq_true.mp h),
    if_neg (fun h => h2 h.1), if_neg h3, if_neg hcap]

theorem scanFwd_step_ws_stop (si : Nat) (rest : List Char) (i esc : Nat)
    (hesc : 2 ≤ esc) :
    scanFwd si (' ' :: rest) i esc false = some i := by
  conv_lhs => rw [scanFwd]
  rw [if_neg (fun h => absurd h.1 (by decide)), if_neg (fun h => Bool.false_eq_true.mp h),
    if_neg (fun h => absurd h.1 (by decide)), if_pos (Or.inl rfl), if_pos hesc]

theorem scanFwd_replicate_a (si : Nat) (rest : List Char) :
    ∀ n i esc, i + n ≤ si + 2001 →
      scanFwd si (List.replicate n 'a' ++ rest) i esc false =
        scanFwd si rest (i + n) esc false := by
  intro n
  induction n with
  | zero => intro i esc _; simp
  | succ n ih =>
    intro i esc hle
    rw [List.replicate_succ, List.cons_append,
      scanFwd_step_other si _ 'a' i esc (by decide) (by decide) (by decide) (by omega),
      ih (i + 1) esc (by omega)]
    congr 1
    omega

/-! ## Claim theorems -/

/-- C1: for every input string `x` the composed pipeline
`formatAsHtml (parseStackTrace (extractStackTrace x))` is a total function
(no error is possible) returning a non-empty markup string, and when the
parse result has `hasStackTrace = false` the output is the fixed
no-stack-trace placeholder. -/
theorem c1_pipeline_total_nonempty (x : List Char) :
    formatAsHtml (parseStackTrace (extractStackTrace x)) ≠ [] ∧
    ((parseStackTrace (extractStackTrace x)).hasStackTrace = false →
      formatAsHtml (parseStackTrace (extractStackTrace x)) = noTraceHtml) := by
  refine ⟨formatAsHtml_ne_nil _, fun h => ?_⟩
  unfold formatAsHtml
  rw [if_pos h]

theorem c1_pipeline_total_nonempty_witness :
    formatAsHtml (parseStackTrace (extractStackTrace [])) ≠ [] ∧
    formatAsHtml (parseStackTrace (extractStackTrace [])) = noTraceHtml :=
  ⟨(c1_pipeline_total_nonempty []).1, (c1_pipeline_total_nonempty []).2 (by decide)⟩

/-- C7: `parseStackTrace` always returns a result, whose `hasStackTrace`
field is true iff some classified line has a type other than `unknown`; the
empty string yields a result with `hasStackTrace = false` and no lines. -/
theorem c7_hasStackTrace_iff (t : List Char) :
    ((parseStackTrace t).hasStackTrace = true ↔
      ∃ l ∈ (parseStackTrace t).lines, l.type ≠ LineType.unknown) ∧
    (parseStackTrace []).hasStackTrace = false ∧
    (parseStackTrace []).lines = [] := by
  refine ⟨?_, by decide, by decide⟩
  simp [parseStackTrace, List.any_eq_true]

/-- C8: `parseStackTrace` splits its input on line boundaries, drops
whitespace-only lines, classifies the remaining lines in original order, and
records the input verbatim in `extractedText`. -/
theorem c8_parse_structure (t : List Char) :
    (parseStackTrace t).extractedText = t ∧
    (parseStackTrace t).lines =
      ((splitCRLF t).filter (fun l => !(jsTrim l).isEmpty)).map parseStackTraceLine :=
  ⟨rfl, by simp [parseStackTrace, collectParsed_eq]⟩

/-- C9: the frame-specific fields (`className`, `methodName`, `fileName`,
`lineNumber`) are absent for every classified line whose type is not `at`. -/
theorem c9_fields_only_for_frames (l : List Char)
    (h : (parseStackTraceLine l).type ≠ LineType.at_) :
    (parseStackTraceLine l).className = none ∧ (parseStackTraceLine l).methodName = none ∧
    (parseStackTraceLine l).fileName = none ∧ (parseStackTraceLine l).lineNumber = none :=
  (parseLine_shape l).resolve_left h

theorem c9_fields_only_for_frames_witness :
    (parseStackTraceLine (str2l "some log text")).type ≠ LineType.at_ ∧
    (parseStackTraceLine (str2l "some log text")).className = none ∧
    (parseStackTraceLine (str2l "some log text")).methodName = none ∧
    (parseStackTraceLine (str2l "some log text")).fileName = none ∧
    (parseStackTraceLine (str2l "some log text")).lineNumber = none :=
  ⟨by decide, c9_fields_only_for_frames (str2l "some log text") (by decide)⟩

/-- C10: every line classified as a frame has a non-empty declaring type and
a non-empty method name — the frame regex requires a dot in the dotted
method path with an identifier segment after it, so the degenerate
empty-declaring-type case cannot occur. -/
theorem c10_frame_names_nonempty (l : List Char)
    (h : (parseStackTraceLine l).type = LineType.at_) :
    ∃ cn mn, (parseStackTraceLine l).className = some cn ∧ cn ≠ [] ∧
      (parseStackTraceLine l).methodName = some mn ∧ mn ≠ [] := by
  obtain ⟨fm, loc, hA, hc, hm, _, _⟩ := parseLine_at_inv l h
  have hs := matchAtLine_hasSplit l fm loc hA
  obtain ⟨_, h1, h2⟩ := atFields_of_hasSplit fm hs
  exact ⟨(atFields fm).1, (atFields fm).2, hc, h1, hm, h2⟩

theorem c10_frame_names_nonempty_witness :
    ∃ cn mn,
      (parseStackTraceLine (str2l "\tat a.b(C.java:1)")).className = some cn ∧ cn ≠ [] ∧
      (parseStackTraceLine (str2l "\tat a.b(C.java:1)")).methodName = some mn ∧ mn ≠ [] :=
  c10_frame_names_nonempty (str2l "\tat a.b(C.java:1)") (by decide)

/-- C2: for every line classified as a frame, the method path splits at its
last dot into declaring type and method name (empty declaring type in the
no-dot degenerate case), and the location splits into `sourceFile` and
`sourceLine` exactly when it decomposes as `<prefix>:<digits>` (otherwise
the whole location is the file and the line number is absent); the sample
line `\tat com.example.MyClass.myMethod(MyClass.java:25)` parses to the
stated frame record. -/
theorem c2_frame_parsing :
    (∀ l, (parseStackTraceLine l).type = LineType.at_ →
      ∃ fm loc, matchAtLine l = some (fm, loc) ∧
        (parseStackTraceLine l).className = some (lastSegmentSplit fm).1 ∧
        (parseStackTraceLine l).methodName = some (lastSegmentSplit fm).2 ∧
        ((∃ p d, d ≠ [] ∧ d.all isDigitCh = true ∧ p ≠ [] ∧ p.all dotCh = true ∧
            loc = p ++ ':' :: d ∧
            (parseStackTraceLine l).fileName = some p ∧
            (parseStackTraceLine l).lineNumber = some (digitsToNat d)) ∨
         ((∀ p d, d ≠ [] → d.all isDigitCh = true → p ≠ [] → p.all dotCh = true →
            loc ≠ p ++ ':' :: d) ∧
          (parseStackTraceLine l).fileName = some loc ∧
          (parseStackTraceLine l).lineNumber = none))) ∧
    (parseStackTraceLine (str2l "\tat com.example.MyClass.myMethod(MyClass.java:25)")).type
        = LineType.at_ ∧
    (parseStackTraceLine (str2l "\tat com.example.MyClass.myMethod(MyClass.java:25)")).className
        = some (str2l "com.example.MyClass") ∧
    (parseStackTraceLine (str2l "\tat com.example.MyClass.myMethod(MyClass.java:25)")).methodName
        = some (str2l "myMethod") ∧
    (parseStackTraceLine (str2l "\tat com.example.MyClass.myMethod(MyClass.java:25)")).fileName
        = some (str2l "MyClass.java") ∧
    (parseStackTraceLine (str2l "\tat com.example.MyClass.myMethod(MyClass.java:25)")).lineNumber
        = some 25 := by
  constructor
  · intro l h
    obtain ⟨fm, loc, hA, hc, hm, hf, hn⟩ := parseLine_at_inv l h
    have hs := matchAtLine_hasSplit l fm loc hA
    have heq := (atFields_of_hasSplit fm hs).1
    refine ⟨fm, loc, hA, by rw [hc, heq], by rw [hm, heq], ?_⟩
    cases hLS : locationSplit loc with
    | some pr =>
      rcases pr with ⟨p, n⟩
      obtain ⟨d, hdec, hp1, hp2, hd1, hd2, hn2⟩ := locationSplit_some loc p n hLS
      exact Or.inl ⟨p, d, hd1, hd2, hp1, hp2, hdec,
        by rw [hf]; simp [locFields, hLS],
        by rw [hn]; simp [locFields, hLS, hn2]⟩
    | none =>
      refine Or.inr ⟨?_, by rw [hf]; simp [locFields, hLS],
        by rw [hn]; simp [locFields, hLS]⟩
      intro p d hd1 hd2 hp1 hp2 heq2
      have hcontra := locationSplit_of_decomp p d hp1 hp2 hd1 hd2
      rw [← heq2, hLS] at hcontra
      exact absurd hcontra (by simp)
  · exact ⟨by decide, by decide, by decide, by decide, by decide⟩

theorem c2_frame_parsing_witness :
    ∃ fm loc,
      matchAtLine (str2l "\tat com.example.MyClass.myMethod(MyClass.java:25)") = some (fm, loc) ∧
      (parseStackTraceLine (str2l "\tat com.example.MyClass.myMethod(MyClass.java:25)")).className
          = some (lastSegmentSplit fm).1 ∧
      (parseStackTraceLine (str2l "\tat com.example.MyClass.myMethod(MyClass.java:25)")).methodName
          = some (lastSegmentSplit fm).2 ∧
      ((∃ p d, d ≠ [] ∧ d.all isDigitCh = true ∧ p ≠ [] ∧ p.all dotCh = true ∧
          loc = p ++ ':' :: d ∧
          (parseStackTraceLine (str2l "\tat com.example.MyClass.myMethod(MyClass.java:25)")).fileName
              = some p ∧
          (parseStackTraceLine (str2l "\tat com.example.MyClass.myMethod(MyClass.java:25)")).lineNumber
              = some (digitsToNat d)) ∨
       ((∀ p d, d ≠ [] → d.all isDigitCh = true → p ≠ [] → p.all dotCh = true →
          loc ≠ p ++ ':' :: d) ∧
        (parseStackTraceLine (str2l "\tat com.example.MyClass.myMethod(MyClass.java:25)")).fileName
            = some loc ∧
        (parseStackTraceLine (str2l "\tat com.example.MyClass.myMethod(MyClass.java:25)")).lineNumber
            = none)) :=
  c2_frame_parsing.1 (str2l "\tat com.example.MyClass.myMethod(MyClass.java:25)") (by decide)

/-- C3: the unescape chain replaces, in source order, `\n`, `\r`, `\t`,
`\"`, `\\`, then `\uXXXX` and `\xXX` (the first sample exercises every
rule, the second shows the chain order: the `\n` rule fires inside `\\n`
before the backslash rule); and for a trace embedded as a JSON string value
with `\n`/`\t` escapes, `extractStackTrace` returns the fully unescaped
trace with no literal two-character `\n`/`\t` sequences remaining (indeed
no backslash at all). -/
theorem c3_unescape_and_extract :
    unescapeJsonString (str2l "A\\nB\\rC\\tD\\\"E\\\\F\\u0041\\x42G") =
      str2l "A\nB\rC\tD\"E\\FABG" ∧
    unescapeJsonString (str2l "\\\\n") = ['\\', '\n'] ∧
    extractStackTrace
        (str2l "\x7b\"e\": \"java.lang.RuntimeException: boom\\n\\tat com.example.Foo.bar(Foo.java:7)\"\x7d") =
      str2l "java.lang.RuntimeException: boom\n\tat com.example.Foo.bar(Foo.java:7)" ∧
    containsTok (str2l "\\n")
      (extractStackTrace
        (str2l "\x7b\"e\": \"java.lang.RuntimeException: boom\\n\\tat com.example.Foo.bar(Foo.java:7)\"\x7d")) = false ∧
    containsTok (str2l "\\t")
      (extractStackTrace
        (str2l "\x7b\"e\": \"java.lang.RuntimeException: boom\\n\\tat com.example.Foo.bar(Foo.java:7)\"\x7d")) = false ∧
    (extractStackTrace
        (str2l "\x7b\"e\": \"java.lang.RuntimeException: boom\\n\\tat com.example.Foo.bar(Foo.java:7)\"\x7d")).all
      (fun c => !(c = '\\')) = true :=
  ⟨by decide, by decide, by decide, by decide, by decide, by decide⟩

/-- C4 counterexample: the single line `at com.a.b(Exception: x)` is a frame
line (so not an exception header), yet the code's block test accepts the
one-line block because its `hasExceptionLine` heuristic fires on the
`Exception:` substring, while the claim as stated (one exception-header
line AND one frame line, or two or three trace-like lines) rejects it. -/
theorem c4_block_counterexample :
    containsStackTracePatterns (str2l "at com.a.b(Exception: x)") = true ∧
    specBlockTraceLike (str2l "at com.a.b(Exception: x)") = false :=
  ⟨by decide, by decide⟩

/-- C4 amended: the block test returns true iff the block has at least 2
trace-like lines, or it has at least one trace-like line whose trimmed text
contains `Exception:`/`Error:`, ends with `Exception`/`Error`, or starts
with `Exception in thread`, and at least one trace-like line whose trimmed
text starts with `at` followed by whitespace and an identifier-start
character, or it has at least 3 trace-like lines; a single line is
trace-like iff it is non-blank after trimming and matches one of the five
structural patterns. -/
theorem c4_block_tracelike_amended (content l : List Char) :
    (containsStackTracePatterns content = true ↔
      (2 ≤ ((splitCRLF content).filter isStackTraceLine).length ∨
       ((∃ x ∈ splitCRLF content, isStackTraceLine x = true ∧ excHeur (jsTrim x) = true) ∧
        (∃ x ∈ splitCRLF content, isStackTraceLine x = true ∧ atHeur (jsTrim x) = true)) ∨
       3 ≤ ((splitCRLF content).filter isStackTraceLine).length)) ∧
    (isStackTraceLine l = true ↔
      (jsTrim l ≠ [] ∧
       (matchExceptionLine l = true ∨ (matchAtLine l).isSome = true ∨
        matchCausedBy l = true ∨ matchSuppressed l = true ∨ matchMore l = true))) := by
  constructor
  · simp only [containsStackTracePatterns, cspLoop_spec, Nat.zero_add, Bool.false_or,
      Bool.or_eq_true, decide_eq_true_eq, Bool.and_eq_true, List.any_eq_true, ge_iff_le]
    exact or_assoc
  · simp [isStackTraceLine, List.isEmpty_iff]
    intro _
    tauto

/-- C5: the line-run fallback of `extractStackTrace` equals the two-phase
description (skip to the first trace-like line, then consume with blank
lines included and a two-line lookahead tolerance), joined with single
newlines; it returns the empty string when no line is trace-like; and it is
exactly what `extractStackTrace` returns when the serialized strategies
find nothing. -/
theorem c5_line_run_fallback (input : List Char) :
    extractLineRuns input = List.intercalate ['\n'] (runSpec (splitCRLF input)) ∧
    ((splitCRLF input).all (fun l => !isStackTraceLine l) = true →
      extractLineRuns input = []) ∧
    (extractSerializedStackTrace input = none →
      extractStackTrace input = extractLineRuns input) := by
  refine ⟨by rw [extractLineRuns, extractLoop_seek], fun h => ?_, fun h => ?_⟩
  · rw [extractLineRuns, extractLoop_seek, runSpec,
      List.dropWhile_eq_nil_iff.mpr (fun x hx => (List.all_eq_true.mp h) x hx)]
    rfl
  · simp only [extractStackTrace, h]

theorem c5_line_run_fallback_witness :
    ((splitCRLF (str2l "hello\nworld")).all (fun l => !isStackTraceLine l) = true ∧
     extractLineRuns (str2l "hello\nworld") = []) ∧
    (extractSerializedStackTrace
        (str2l "noise\njava.lang.FooException: x\n\tat com.a.B.c(B.java:2)\nnoise") = none ∧
     extractStackTrace
        (str2l "noise\njava.lang.FooException: x\n\tat com.a.B.c(B.java:2)\nnoise") =
       extractLineRuns
        (str2l "noise\njava.lang.FooException: x\n\tat com.a.B.c(B.java:2)\nnoise")) :=
  ⟨⟨by decide, (c5_line_run_fallback (str2l "hello\nworld")).2.1 (by decide)⟩,
   ⟨by decide,
    (c5_line_run_fallback
      (str2l "noise\njava.lang.FooException: x\n\tat com.a.B.c(B.java:2)\nnoise")).2.2
      (by decide)⟩⟩

/-- Input refuting the 2000-character reading of the forward-scan cap: two
escape pairs, 1997 filler characters, and a space at index 2001. -/
def c6Input : List Char :=
  '\\' :: 'n' :: '\\' :: 't' :: (List.replicate 1997 'a' ++ [' '])

/-- C6 counterexample: starting at match position 0, the forward scan only
stops at the whitespace at index 2001 — 2001 characters beyond the match
position, past the claimed 2000-character cap (the source checks
`i > startIndex + 2000` after processing index `i`) — and the returned span
has length 2001 accordingly. -/
theorem c6_scan_counterexample :
    eesEnd c6Input 0 = 2001 ∧
    (extractExtendedEscapedSequence c6Input 0).length = 2001 := by
  have hscan : scanFwd 0 c6Input 0 0 false = some 2001 := by
    show scanFwd 0 ('\\' :: 'n' :: '\\' :: 't' :: (List.replicate 1997 'a' ++ [' ']))
        0 0 false = some 2001
    rw [scanFwd_step_esc 0 _ 0 0 (by omega),
        scanFwd_step_inEsc 0 _ 'n' 1 1 (by omega),
        scanFwd_step_esc 0 _ 2 1 (by omega),
        scanFwd_step_inEsc 0 _ 't' 3 2 (by omega),
        scanFwd_replicate_a 0 [' '] 1997 4 2 (by omega)]
    exact scanFwd_step_ws_stop 0 [] (4 + 1997) 2 (by omega)
  have hend : eesEnd c6Input 0 = 2001 := by
    rw [eesEnd, List.drop_zero, hscan]
    simp
  have hlen : c6Input.length = 2002 := by simp [c6Input]
  refine ⟨hend, ?_⟩
  rw [extractExtendedEscapedSequence, hend]
  have hstart : eesStart c6Input 0 = 0 := by simp [eesStart]
  rw [hstart]
  simp [hlen]

/-- C6 amended: the forward walk of `extractExtendedEscapedSequence` is
bounded — the scan index can reach at most `startIndex + 2001` (the cap
check `i > startIndex + 2000` runs after each iteration), so the computed
end never exceeds `startIndex + 2001` and the scan, and `extractStackTrace`
as a whole, terminates on every input (all the model functions are total). -/
theorem c6_forward_scan_bound (input : List Char) (si : Nat) :
    eesEnd input si ≤ si + 2001 := by
  unfold eesEnd
  cases h : scanFwd si (input.drop si) si 0 false with
  | none =>
    simp only [h, Option.getD_none]
    rw [if_pos (le_refl si)]
    exact le_trans (min_le_right _ _) (by omega)
  | some e =>
    have he := scanFwd_le si (input.drop si) si 0 false e (by omega) h
    simp only [h, Option.getD_some]
    split
    · exact le_trans (min_le_right _ _) (by omega)
    · exact he

end STP
